import Mathlib

/-!
A shallow embedding of the tree-walking interpreter in `src/src/main.rs`.

Modelling conventions:
* Rust `i64` is modelled as `Int`.  Division is the one arithmetic
  operation whose overflow check fires in every build profile: `a / b`
  panics at `a = i64::MIN, b = -1`, and the `div` builtin models that panic
  explicitly.  The overflow checks of `+`, `-`, `*` and `pow` fire only in
  debug builds (release builds wrap) and are outside the model.
* `HashMap<String, ResultValue>` is modelled as an association list with
  prepend-on-insert and first-match lookup; this has exactly the lookup
  semantics of `HashMap::insert`/`get` (a later insert of the same key
  shadows the earlier one), and nothing in the source iterates a map.
* The twelve builtin function pointers stored in `ResultValue::Func` are the
  only function values in the program, so a `Func` value is embedded as its
  declared arity together with a tag naming which of the twelve native
  operations it is; `applyBuiltin` executes the tagged operation exactly as
  the corresponding Rust closure does.
* `eval_expr` takes `&mut Env`; the embedding passes the environment
  explicitly and returns the updated environment on success.  Errors abort
  the whole evaluation in the source, so the error case carries no
  environment.  Recursion through a closure's stored body is not structural,
  hence evaluation takes a fuel parameter; `none` means fuel ran out and
  `some r` is the result the source computes.
-/

namespace Interp

/-- The AST, mirroring `enum Expr` of the source. -/
inductive Expr where
  | Application : List Expr → Expr
  | Identifier : String → Expr
  | Cond : List Expr → Expr
  | Block : List Expr → Expr
  | Clause : List Expr → Expr
  | Number : Int → Expr
  | String : String → Expr
  | Parameters : List Expr → Expr
  | Lambda : List Expr → Expr
  | Let : Expr → Expr → Expr → Expr
  | Define : Expr → Expr → Expr

/-- Tags for the twelve native operations installed by
`Env::initialize_builtins`; the function pointer stored in
`ResultValue::Func` is always one of these. -/
inductive BuiltinOp where
  | add | sub | mul | div | pow | zeroQ
  | eq | lt | gt | ge | le | print
deriving DecidableEq

mutual
/-- Runtime values, mirroring `enum ResultValue`. -/
inductive ResultValue where
  | Number : Int → ResultValue
  | Bool : Bool → ResultValue
  | String : String → ResultValue
  | Func : Nat → BuiltinOp → ResultValue
  | Lambda : List String → Expr → Env → ResultValue

/-- An environment node, mirroring `struct Env`: local variable bindings, a
builtin table, and an optional parent. -/
inductive Env where
  | mk : List (String × ResultValue) → List (String × ResultValue) →
      Option Env → Env
end

/-- Accessor for the `vars` field. -/
def Env.vars : Env → List (String × ResultValue)
  | .mk v _ _ => v

/-- Accessor for the `builtins` field. -/
def Env.builtins : Env → List (String × ResultValue)
  | .mk _ b _ => b

/-- Accessor for the `parent` field. -/
def Env.parent : Env → Option Env
  | .mk _ _ p => p

/-- Lookup in an association-list map: the first binding of the key wins,
matching `HashMap::get` after prepend-style inserts. -/
def lookupStr : List (String × ResultValue) → String → Option ResultValue
  | [], _ => none
  | (k, v) :: rest, name => if k = name then some v else lookupStr rest name

/-- The least `i64` value, `-2^63`. -/
def i64Min : Int := -(2 ^ 63)

/-- The native operation behind each builtin, transcribed clause by clause
from the Rust closures in `Env::initialize_builtins` (including their
internal re-check of the argument count and their exact error strings).
`print` writes to stdout in the source and then returns `Number(0)`; the
write itself is outside the value-level model.  The `div` branch models the
overflow panic of `i64::MIN / -1` (which Rust checks in every build
profile) as an explicit panic outcome. -/
def applyBuiltin : BuiltinOp → List ResultValue → Except String ResultValue
  | .add, args =>
    if args.length ≠ 2 then .error "Expected exactly 2 arguments" else
    match args with
    | [.Number a, .Number b] => .ok (.Number (a + b))
    | _ => .error "Invalid arguments"
  | .sub, args =>
    if args.length ≠ 2 then .error "Expected exactly 2 arguments" else
    match args with
    | [.Number a, .Number b] => .ok (.Number (a - b))
    | _ => .error "Invalid arguments"
  | .mul, args =>
    if args.length ≠ 2 then .error "Expected exactly 2 arguments" else
    match args with
    | [.Number a, .Number b] => .ok (.Number (a * b))
    | _ => .error "Invalid arguments"
  | .div, args =>
    if args.length ≠ 2 then .error "Expected exactly 2 arguments" else
    match args with
    | [.Number a, .Number b] =>
      if b = 0 then .error "Division by zero"
      -- `a / b` on `i64` panics here in the source, in release builds too.
      else if a = i64Min ∧ b = -1 then
        .error "panicked at attempt to divide with overflow"
      else .ok (.Number (Int.tdiv a b))
    | _ => .error "Invalid arguments"
  | .pow, args =>
    if args.length ≠ 2 then .error "Expected exactly 2 arguments" else
    match args with
    | [.Number a, .Number b] =>
      -- `b as u32` in Rust keeps the low 32 bits of the two's-complement
      -- representation of `b`.
      .ok (.Number (a ^ (b % (2 ^ 32 : Int)).toNat))
    | _ => .error "Invalid arguments"
  | .zeroQ, args =>
    if args.length ≠ 1 then .error "Expected exactly 1 argument" else
    match args with
    | [.Number n] => .ok (.Bool (n = 0))
    | _ => .error "Invalid argument"
  | .eq, args =>
    if args.length ≠ 2 then .error "Expected exactly 2 arguments" else
    match args with
    | [.Number a, .Number b] => .ok (.Bool (a = b))
    | _ => .error "Invalid arguments"
  | .lt, args =>
    if args.length ≠ 2 then .error "Expected exactly 2 arguments" else
    match args with
    | [.Number a, .Number b] => .ok (.Bool (a < b))
    | _ => .error "Invalid arguments"
  | .gt, args =>
    if args.length ≠ 2 then .error "Expected exactly 2 arguments" else
    match args with
    | [.Number a, .Number b] => .ok (.Bool (a > b))
    | _ => .error "Invalid arguments"
  | .ge, args =>
    if args.length ≠ 2 then .error "Expected exactly 2 arguments" else
    match args with
    | [.Number a, .Number b] => .ok (.Bool (a ≥ b))
    | _ => .error "Invalid arguments"
  | .le, args =>
    if args.length ≠ 2 then .error "Expected exactly 2 arguments" else
    match args with
    | [.Number a, .Number b] => .ok (.Bool (a ≤ b))
    | _ => .error "Invalid arguments"
  | .print, args =>
    if args.length ≠ 1 then .error "Expected exactly 1 argument" else
    .ok (.Number 0)

/-- The builtin table installed by `Env::initialize_builtins` at every node.
`HashMap` iteration order is unspecified, so the entries are listed in the
order the source inserts them; only lookups are ever performed on the map. -/
def initBuiltins : List (String × ResultValue) :=
  [("add", .Func 2 .add), ("sub", .Func 2 .sub), ("mul", .Func 2 .mul),
   ("div", .Func 2 .div), ("pow", .Func 2 .pow), ("zero?", .Func 1 .zeroQ),
   ("=", .Func 2 .eq), ("<", .Func 2 .lt), (">", .Func 2 .gt),
   (">=", .Func 2 .ge), ("<=", .Func 2 .le), ("print", .Func 1 .print)]

/-- The demonstration variables installed by `Env::initialize_vars`. -/
def initVars : List (String × ResultValue) :=
  [("x", .Number 10), ("v", .Number 5), ("i", .Number 1)]

/-- Rust `Env::new`: fresh node with the demonstration variables and the builtin
table, no parent. -/
def Env.new : Env := .mk initVars initBuiltins none

/-- Rust `Env::get_vars`: check this node's `vars`, else recurse into the parent.
The builtin table is never consulted here. -/
def getVars : Env → String → Option ResultValue
  | .mk vars _ parent, name =>
    (lookupStr vars name).orElse fun _ =>
      match parent with
      | some p => getVars p name
      | none => none

/-- Rust `Env::insert_vars`: bind `name` in this node only (prepend shadows any
older binding, like `HashMap::insert` overwriting). -/
def insertVars : Env → String → ResultValue → Env
  | .mk vars builtins parent, name, value =>
    .mk ((name, value) :: vars) builtins parent

/-- Rust `Debug` escaping for the characters that `{:?}` on a `String`
escapes; exotic unicode escaping is elided (it never affects a comparison the
interpreter makes, since rendered values are only compared against builtin
names and the word "true"). -/
def escChar (c : Char) : String :=
  if c = '"' then "\\\"" else
  if c = '\\' then "\\\\" else
  if c = '\n' then "\\n" else
  if c = '\t' then "\\t" else
  if c = '\r' then "\\r" else String.singleton c

/-- Rust `{:?}` rendering of a `String`. -/
def strDebug (s : String) : String :=
  "\"" ++ String.join (s.data.map escChar) ++ "\""

/-- Rust `{:?}` rendering of a `Vec<String>`. -/
def vecStrDebug (l : List String) : String :=
  "[" ++ String.intercalate ", " (l.map strDebug) ++ "]"

mutual
/-- The derived `Debug` rendering of `Expr` (used by `Display` for lambda
values). -/
def exprDebug : Expr → String
  | .Application es => "Application(" ++ exprListDebug es ++ ")"
  | .Identifier s => "Identifier(" ++ strDebug s ++ ")"
  | .Cond es => "Cond(" ++ exprListDebug es ++ ")"
  | .Block es => "Block(" ++ exprListDebug es ++ ")"
  | .Clause es => "Clause(" ++ exprListDebug es ++ ")"
  | .Number n => "Number(" ++ toString n ++ ")"
  | .String s => "String(" ++ strDebug s ++ ")"
  | .Parameters es => "Parameters(" ++ exprListDebug es ++ ")"
  | .Lambda es => "Lambda(" ++ exprListDebug es ++ ")"
  | .Let a b c =>
    "Let(" ++ exprDebug a ++ ", " ++ exprDebug b ++ ", " ++ exprDebug c ++ ")"
  | .Define a b => "Define(" ++ exprDebug a ++ ", " ++ exprDebug b ++ ")"

/-- The `Debug` rendering of a `Vec<Expr>`: brackets around the
comma-separated elements. -/
def exprListDebug (es : List Expr) : String :=
  "[" ++ exprListDebugInner es ++ "]"

/-- The comma-separated elements of a `Vec<Expr>` `Debug` rendering. -/
def exprListDebugInner : List Expr → String
  | [] => ""
  | [e] => exprDebug e
  | e :: rest => exprDebug e ++ ", " ++ exprListDebugInner rest
end

/-- Rust `Display for ResultValue` (`to_string`), the textual rendering the
evaluator compares against builtin names and the word "true". -/
def rvToString : ResultValue → String
  | .Number n => toString n
  | .Bool b => if b then "true" else "false"
  | .String s => s
  | .Func _ _ => "<function>"
  | .Lambda p b _ => "<lambda " ++ vecStrDebug p ++ " " ++ exprDebug b ++ ">"

/-- Result of one evaluator call: `none` when the fuel bound is exhausted,
otherwise the `Result<ResultValue, String>` of the source paired (on
success) with the updated environment that `&mut Env` holds afterwards. -/
abbrev EvalRes := Option (Except String (ResultValue × Env))

/-- The type of a one-level evaluator, used to parameterise the loop
helpers below over the recursive call. -/
abbrev EvalFn := Expr → Env → EvalRes

/-- The parameter-name extraction of `Expr::Lambda` evaluation: the
`map`/`collect` over the `Parameters` children, stopping at the first
non-identifier. -/
def extractNames : List Expr → Except String (List String)
  | [] => .ok []
  | .Identifier n :: rest =>
    match extractNames rest with
    | .ok names => .ok (n :: names)
    | .error e => .error e
  | _ :: _ => .error "Invalid parameter"

/-- The `map`/`collect` of `apply_function`'s builtin branch: evaluate the
argument expressions left to right against the caller's environment,
stopping at the first error. -/
def evalArgsW (ev : EvalFn) :
    List Expr → Env → Option (Except String (List ResultValue × Env))
  | [], env => some (.ok ([], env))
  | a :: rest, env =>
    match ev a env with
    | none => none
    | some (.error e) => some (.error e)
    | some (.ok (v, env1)) =>
      match evalArgsW ev rest env1 with
      | none => none
      | some (.error e) => some (.error e)
      | some (.ok (vs, env2)) => some (.ok (v :: vs, env2))

/-- The parameter-binding loop of `apply_function`'s closure branch: each
argument expression is evaluated against the closure's captured environment
as mutated so far, then bound under the parameter name into it.  The zip in
the source truncates at the shorter list, but the caller has already checked
the lengths match. -/
def bindParamsW (ev : EvalFn) :
    List String → List Expr → Env → Option (Except String Env)
  | p :: ps, a :: rest, lenv =>
    match ev a lenv with
    | none => none
    | some (.error e) => some (.error e)
    | some (.ok (v, lenv1)) => bindParamsW ev ps rest (insertVars lenv1 p v)
  | _, _, lenv => some (.ok lenv)

/-- The clause loop of `Expr::Cond` evaluation. -/
def evalClausesW (ev : EvalFn) : List Expr → Env → EvalRes
  | [], _ => some (.error "No true clause")
  | .Clause cl :: rest, env =>
    if cl.length ≠ 2 then
      some (.error "Each clause must have exactly 2 expressions")
    else
      match cl with
      | [c, q] =>
        match ev c env with
        | none => none
        | some (.error e) => some (.error e)
        | some (.ok (v, env1)) =>
          if rvToString v = "true" then ev q env1
          else evalClausesW ev rest env1
      | _ => some (.error "Each clause must have exactly 2 expressions")
  | _ :: _, _ => some (.error "Invalid clause")

/-- The statement loop of `Expr::Block` evaluation, threading the running
result (initially `Number(0)`). -/
def evalBlockW (ev : EvalFn) : List Expr → ResultValue → Env → EvalRes
  | [], acc, env => some (.ok (acc, env))
  | e :: rest, _, env =>
    match ev e env with
    | none => none
    | some (.error err) => some (.error err)
    | some (.ok (v, env1)) => evalBlockW ev rest v env1

/-- Rust `apply_function`, parameterised over the recursive evaluator.  The
builtin branch evaluates arguments against the caller's environment; the
closure branch works entirely inside the closure's captured environment and
leaves the caller's environment untouched. -/
def applyFunctionW (ev : EvalFn) :
    ResultValue → List Expr → Env → EvalRes
  | .Func arity op, args, env =>
    if args.length ≠ arity then
      some (.error ("Expected " ++ toString arity ++ " arguments"))
    else
      match evalArgsW ev args env with
      | none => none
      | some (.error e) => some (.error e)
      | some (.ok (vals, env1)) =>
        match applyBuiltin op vals with
        | .ok v => some (.ok (v, env1))
        | .error e => some (.error e)
  | .Lambda params body lenv, args, env =>
    if args.length ≠ params.length then
      some (.error ("Expected " ++ toString params.length ++ " arguments"))
    else
      match bindParamsW ev params args lenv with
      | none => none
      | some (.error e) => some (.error e)
      | some (.ok lenv1) =>
        match ev body lenv1 with
        | none => none
        | some (.error e) => some (.error e)
        | some (.ok (v, _)) => some (.ok (v, env))
  | _, _, _ => some (.error "Not a function")

/-- Rust `eval_expr`, with a fuel bound on the recursion depth (`none` = fuel ran
out; the source recurses without bound).  Each case is transcribed from the
corresponding `match` arm of the source. -/
def eval : Nat → Expr → Env → EvalRes
  | 0, _, _ => none
  | fuel + 1, e, env =>
    match e with
    | .Number n => some (.ok (.Number n, env))
    | .String s => some (.ok (.String s, env))
    | .Application args =>
      match args with
      -- `args.remove(0)` on an empty `Vec` panics in the source.
      | [] => some (.error "panicked at remove on empty Application")
      | callee :: rest =>
        match eval fuel callee env with
        | none => none
        | some (.error e) => some (.error e)
        | some (.ok (func, env1)) =>
          match lookupStr (Env.builtins env1) (rvToString func) with
          | some bf => applyFunctionW (eval fuel) bf rest env1
          | none => applyFunctionW (eval fuel) func rest env1
    | .Identifier value =>
      match getVars env value with
      | some val => some (.ok (val, env))
      | none => some (.ok (.String value, env))
    | .Block exprs => evalBlockW (eval fuel) exprs (.Number 0) env
    | .Cond clauses => evalClausesW (eval fuel) clauses env
    | .Clause _ => some (.error "Invalid clause not wrapped in a cond")
    | .Parameters _ => some (.error "Invalid parameters not wrapped in a lambda")
    | .Lambda args =>
      match args with
      | [params, bodyExpr] =>
        match params with
        | .Parameters ps =>
          match extractNames ps with
          | .ok names => some (.ok (.Lambda names bodyExpr env, env))
          | .error e => some (.error e)
        | _ => some (.error "Invalid parameters")
      | _ => some (.error "Lambda must have exactly 2 expressions")
    | .Let name value body =>
      match name with
      | .Identifier n =>
        match eval fuel value env with
        | none => none
        | some (.error e) => some (.error e)
        | some (.ok (v, env1)) => eval fuel body (insertVars env1 n v)
      | _ => some (.error "Invalid variable name")
    | .Define name value =>
      match name with
      | .Identifier n =>
        match eval fuel value env with
        | none => none
        | some (.error e) => some (.error e)
        | some (.ok (v, env1)) => some (.ok (.Number 0, insertVars env1 n v))
      | _ => some (.error "Invalid variable name")

/-- Rust `apply_function` at a given fuel level, as dispatched from
`Expr::Application` evaluation. -/
def applyFunction (fuel : Nat) : ResultValue → List Expr → Env → EvalRes :=
  applyFunctionW (eval fuel)

/-- The nodes of an environment chain, current node first, then the parents
in order. -/
def chainNodes : Env → List Env
  | .mk vars b parent =>
    .mk vars b parent ::
      (match parent with
       | some p => chainNodes p
       | none => [])

mutual
/-- A runtime value whose every embedded environment node carries the
pristine builtin table. -/
def ValGood : ResultValue → Prop
  | .Lambda _ _ e => EnvGood e
  | _ => True

/-- An environment chain in which every node's builtin table equals the
fixed initial registry, recursively including environments captured inside
closure values stored in the bindings. -/
def EnvGood : Env → Prop
  | .mk vars b parent => b = initBuiltins ∧ VarsGood vars ∧ ParentGood parent

/-- All values of a binding list are good. -/
def VarsGood : List (String × ResultValue) → Prop
  | [] => True
  | (_, v) :: rest => ValGood v ∧ VarsGood rest

/-- A good optional parent. -/
def ParentGood : Option Env → Prop
  | none => True
  | some p => EnvGood p
end

/-- An evaluator call that maps good environments to good environments and
good result values; the induction hypothesis shape for `eval` at one fuel
level lower. -/
def GoodEval (ev : EvalFn) : Prop :=
  ∀ e env r env', ev e env = some (.ok (r, env')) → EnvGood env →
    EnvGood env' ∧ ValGood r

/-- A closure body used in the concrete counterexample programs below: it
reads `flag` (unbound at first, so the identifier falls back to the string
"flag"), then defines `flag := 42` in the evaluation environment, and
returns the value `flag` had when the body started. -/
def c3Body : Expr :=
  .Let (.Identifier "r") (.Identifier "flag")
    (.Block [.Define (.Identifier "flag") (.Number 42), .Identifier "r"])

/-- Bind `f` to a nullary closure over `c3Body`, then call `f` twice in a
`Block`; the program's value is the second call's result.  If calls mutated
the stored closure's captured snapshot persistently, the second call would
see `flag = 42`; the source clones the closure at every lookup, so it sees
the string "flag" again. -/
def c3Prog : Expr :=
  .Let (.Identifier "f") (.Lambda [.Parameters [], c3Body])
    (.Block [.Application [.Identifier "f"], .Application [.Identifier "f"]])

/-- A hit in the front node's local bindings answers the lookup at once. -/
theorem getVars_hit (vars b : List (String × ResultValue))
    (parent : Option Env) (n : String) (v : ResultValue)
    (h : lookupStr vars n = some v) :
    getVars (.mk vars b parent) n = some v := by
  cases parent <;> simp [getVars, h, Option.orElse]

/-- Rust `Env::get_vars` is exactly a first-hit search of the local `vars` maps
along the chain, current node first. -/
theorem getVars_chain : ∀ (env : Env) (n : String),
    getVars env n = (chainNodes env).findSome? fun e => lookupStr (Env.vars e) n
  | .mk vars b none, n => by
    simp only [getVars, chainNodes, List.findSome?, Env.vars]
    cases lookupStr vars n <;> rfl
  | .mk vars b (some p), n => by
    have ih := getVars_chain p n
    simp only [getVars, chainNodes, List.findSome?, Env.vars] at ih ⊢
    cases lookupStr vars n <;> simp [Option.orElse, ih]

/-- Rust `Env::get_vars` reports "not found" exactly when every node of the
chain lacks the name in its local `vars`; the builtin tables play no part. -/
theorem getVars_eq_none_iff (env : Env) (n : String) :
    getVars env n = none ↔ ∀ e ∈ chainNodes env, lookupStr (Env.vars e) n = none := by
  rw [getVars_chain]
  exact List.findSome?_eq_none_iff

/-- The builtin table of a good environment's front node is the initial
registry. -/
theorem builtins_eq_of_good : ∀ (env : Env), EnvGood env → Env.builtins env = initBuiltins
  | .mk _ _ _, h => h.1

/-- Every value stored in the initial builtin table is good. -/
theorem varsGood_initBuiltins : VarsGood initBuiltins := by
  simp [initBuiltins, VarsGood, ValGood]

/-- Every value stored in the initial demonstration variables is good. -/
theorem varsGood_initVars : VarsGood initVars := by
  simp [initVars, VarsGood, ValGood]

/-- The start-up environment is good. -/
theorem envGood_new : EnvGood Env.new :=
  ⟨rfl, varsGood_initVars, trivial⟩

/-- Looking up in a good binding list yields a good value. -/
theorem lookupStr_good : ∀ (l : List (String × ResultValue)) (n : String)
    (v : ResultValue), VarsGood l → lookupStr l n = some v → ValGood v
  | [], _, _, _, h => by cases h
  | (k, w) :: rest, n, v, hg, h => by
    rw [lookupStr] at h
    by_cases hk : k = n
    · simp only [hk, if_pos rfl] at h
      cases h
      exact hg.1
    · rw [if_neg hk] at h
      exact lookupStr_good rest n v hg.2 h

/-- Looking a name up in a good environment yields a good value. -/
theorem getVars_good : ∀ (env : Env) (n : String) (v : ResultValue),
    EnvGood env → getVars env n = some v → ValGood v
  | .mk vars b none, n, v, hg, h => by
    simp only [getVars] at h
    cases hl : lookupStr vars n with
    | some w =>
      simp only [hl, Option.orElse] at h
      cases h
      exact lookupStr_good vars n v hg.2.1 hl
    | none => simp [hl, Option.orElse] at h
  | .mk vars b (some p), n, v, hg, h => by
    simp only [getVars] at h
    cases hl : lookupStr vars n with
    | some w =>
      simp only [hl, Option.orElse] at h
      cases h
      exact lookupStr_good vars n v hg.2.1 hl
    | none =>
      simp only [hl, Option.orElse] at h
      exact getVars_good p n v hg.2.2 h

/-- Binding a good value into a good environment keeps it good. -/
theorem insertVars_good : ∀ (env : Env) (n : String) (v : ResultValue),
    EnvGood env → ValGood v → EnvGood (insertVars env n v)
  | .mk vars b parent, n, v, hg, hv => ⟨hg.1, ⟨hv, hg.2.1⟩, hg.2.2⟩

/-- A builtin's native operation only ever returns numbers and booleans, so
its results are always good. -/
theorem applyBuiltin_good (op : BuiltinOp) (args : List ResultValue)
    (v : ResultValue) (h : applyBuiltin op args = .ok v) : ValGood v := by
  cases op <;> simp only [applyBuiltin] at h <;>
    repeat' split at h
  all_goals (cases h <;> simp [ValGood])

/-- The argument-evaluation loop preserves goodness and produces good
values. -/
theorem evalArgsW_good {ev : EvalFn} (hev : GoodEval ev) :
    ∀ (args : List Expr) (env : Env) (vals : List ResultValue) (env' : Env),
      evalArgsW ev args env = some (.ok (vals, env')) → EnvGood env →
      EnvGood env' ∧ ∀ v ∈ vals, ValGood v
  | [], env, vals, env', h, hg => by
    simp only [evalArgsW] at h
    cases h
    exact ⟨hg, by simp⟩
  | a :: rest, env, vals, env', h, hg => by
    cases h1 : ev a env with
    | none => simp [evalArgsW, h1] at h
    | some r1 =>
      cases r1 with
      | error e => simp [evalArgsW, h1] at h
      | ok p =>
        obtain ⟨v, env1⟩ := p
        simp only [evalArgsW, h1] at h
        obtain ⟨hg1, hv1⟩ := hev a env v env1 h1 hg
        cases h2 : evalArgsW ev rest env1 with
        | none => simp [h2] at h
        | some r2 =>
          cases r2 with
          | error e => simp [h2] at h
          | ok q =>
            obtain ⟨vs, env2⟩ := q
            simp only [h2] at h
            obtain ⟨hg2, hvs⟩ := evalArgsW_good hev rest env1 vs env2 h2 hg1
            cases h
            refine ⟨hg2, ?_⟩
            intro w hw
            rcases List.mem_cons.mp hw with hw | hw
            · exact hw ▸ hv1
            · exact hvs w hw

/-- The parameter-binding loop preserves goodness of the closure's captured
environment. -/
theorem bindParamsW_good {ev : EvalFn} (hev : GoodEval ev) :
    ∀ (ps : List String) (args : List Expr) (lenv lenv' : Env),
      bindParamsW ev ps args lenv = some (.ok lenv') → EnvGood lenv →
      EnvGood lenv'
  | p :: ps, a :: rest, lenv, lenv', h, hg => by
    cases h1 : ev a lenv with
    | none => simp [bindParamsW, h1] at h
    | some r1 =>
      cases r1 with
      | error e => simp [bindParamsW, h1] at h
      | ok q =>
        obtain ⟨v, lenv1⟩ := q
        simp only [bindParamsW, h1] at h
        obtain ⟨hg1, hv⟩ := hev a lenv v lenv1 h1 hg
        exact bindParamsW_good hev ps rest (insertVars lenv1 p v) lenv' h
          (insertVars_good lenv1 p v hg1 hv)
  | [], [], lenv, lenv', h, hg => by
    simp only [bindParamsW] at h; cases h; exact hg
  | [], _ :: _, lenv, lenv', h, hg => by
    simp only [bindParamsW] at h; cases h; exact hg
  | _ :: _, [], lenv, lenv', h, hg => by
    simp only [bindParamsW] at h; cases h; exact hg

/-- The clause loop of `Cond` preserves goodness and produces good values. -/
theorem evalClausesW_good {ev : EvalFn} (hev : GoodEval ev) :
    ∀ (clauses : List Expr) (env : Env) (r : ResultValue) (env' : Env),
      evalClausesW ev clauses env = some (.ok (r, env')) → EnvGood env →
      EnvGood env' ∧ ValGood r
  | [], env, r, env', h, hg => by simp [evalClausesW] at h
  | .Clause cl :: rest, env, r, env', h, hg => by
    rcases cl with _ | ⟨c, _ | ⟨q, _ | ⟨x, xs⟩⟩⟩
    · simp [evalClausesW] at h
    · simp [evalClausesW] at h
    · simp only [evalClausesW] at h
      cases h1 : ev c env with
      | none => simp [h1] at h
      | some r1 =>
        cases r1 with
        | error e => simp [h1] at h
        | ok p =>
          obtain ⟨v, env1⟩ := p
          simp only [h1] at h
          obtain ⟨hg1, hv1⟩ := hev c env v env1 h1 hg
          by_cases ht : rvToString v = "true"
          · rw [if_pos ht] at h
            exact hev q env1 r env' h hg1
          · rw [if_neg ht] at h
            exact evalClausesW_good hev rest env1 r env' h hg1
    · simp [evalClausesW] at h
  | .Application a :: rest, env, r, env', h, hg => by simp [evalClausesW] at h
  | .Identifier a :: rest, env, r, env', h, hg => by simp [evalClausesW] at h
  | .Cond a :: rest, env, r, env', h, hg => by simp [evalClausesW] at h
  | .Block a :: rest, env, r, env', h, hg => by simp [evalClausesW] at h
  | .Number a :: rest, env, r, env', h, hg => by simp [evalClausesW] at h
  | .String a :: rest, env, r, env', h, hg => by simp [evalClausesW] at h
  | .Parameters a :: rest, env, r, env', h, hg => by simp [evalClausesW] at h
  | .Lambda a :: rest, env, r, env', h, hg => by simp [evalClausesW] at h
  | .Let a b c :: rest, env, r, env', h, hg => by simp [evalClausesW] at h
  | .Define a b :: rest, env, r, env', h, hg => by simp [evalClausesW] at h

/-- The statement loop of `Block` preserves goodness and produces a good
value whenever the running result is good. -/
theorem evalBlockW_good {ev : EvalFn} (hev : GoodEval ev) :
    ∀ (exprs : List Expr) (acc : ResultValue) (env : Env) (r : ResultValue)
      (env' : Env),
      evalBlockW ev exprs acc env = some (.ok (r, env')) → EnvGood env →
      ValGood acc → EnvGood env' ∧ ValGood r
  | [], acc, env, r, env', h, hg, ha => by
    simp only [evalBlockW] at h
    cases h
    exact ⟨hg, ha⟩
  | e :: rest, acc, env, r, env', h, hg, ha => by
    cases h1 : ev e env with
    | none => simp [evalBlockW, h1] at h
    | some r1 =>
      cases r1 with
      | error err => simp [evalBlockW, h1] at h
      | ok p =>
        obtain ⟨v, env1⟩ := p
        simp only [evalBlockW, h1] at h
        obtain ⟨hg1, hv1⟩ := hev e env v env1 h1 hg
        exact evalBlockW_good hev rest v env1 r env' h hg1 hv1

/-- Rust `apply_function` preserves goodness: applying a good callable in a good
caller environment yields a good result and a good caller environment. -/
theorem applyFunctionW_good {ev : EvalFn} (hev : GoodEval ev) :
    ∀ (f : ResultValue) (args : List Expr) (env : Env) (r : ResultValue)
      (env' : Env),
      ValGood f → applyFunctionW ev f args env = some (.ok (r, env')) →
      EnvGood env → EnvGood env' ∧ ValGood r
  | .Func arity op, args, env, r, env', hf, h, hg => by
    simp only [applyFunctionW] at h
    split at h
    · simp at h
    · cases h2 : evalArgsW ev args env with
      | none => simp [h2] at h
      | some r2 =>
        cases r2 with
        | error e => simp [h2] at h
        | ok q =>
          obtain ⟨vals, env1⟩ := q
          simp only [h2] at h
          obtain ⟨hg1, _⟩ := evalArgsW_good hev args env vals env1 h2 hg
          cases h3 : applyBuiltin op vals with
          | error e => simp [h3] at h
          | ok v2 =>
            simp only [h3] at h
            cases h
            exact ⟨hg1, applyBuiltin_good op vals _ h3⟩
  | .Lambda params body lenv, args, env, r, env', hf, h, hg => by
    simp only [applyFunctionW] at h
    split at h
    · simp at h
    · have hlenv : EnvGood lenv := by
        have : ValGood (.Lambda params body lenv) = EnvGood lenv := by
          simp [ValGood]
        exact this ▸ hf
      cases h2 : bindParamsW ev params args lenv with
      | none => simp [h2] at h
      | some r2 =>
        cases r2 with
        | error e => simp [h2] at h
        | ok lenv1 =>
          simp only [h2] at h
          have hg1 := bindParamsW_good hev params args lenv lenv1 h2 hlenv
          cases h3 : ev body lenv1 with
          | none => simp [h3] at h
          | some r3 =>
            cases r3 with
            | error e => simp [h3] at h
            | ok q =>
              obtain ⟨v, lenv2⟩ := q
              simp only [h3] at h
              obtain ⟨_, hv⟩ := hev body lenv1 v lenv2 h3 hg1
              cases h
              exact ⟨hg, hv⟩
  | .Number n, args, env, r, env', hf, h, hg => by simp [applyFunctionW] at h
  | .Bool b, args, env, r, env', hf, h, hg => by simp [applyFunctionW] at h
  | .String s, args, env, r, env', hf, h, hg => by simp [applyFunctionW] at h

/-- Evaluation preserves goodness at every fuel level: from a good
environment, `eval_expr` can only produce a good environment and a good
value.  In particular no evaluation step touches any builtin table. -/
theorem eval_good : ∀ (fuel : Nat), GoodEval (eval fuel) := by
  intro fuel
  induction fuel with
  | zero =>
    intro e env r env' h hg
    simp [eval] at h
  | succ fuel ih =>
    intro e env r env' h hg
    cases e with
    | Number n =>
      simp only [eval] at h
      cases h
      exact ⟨hg, by simp [ValGood]⟩
    | String s =>
      simp only [eval] at h
      cases h
      exact ⟨hg, by simp [ValGood]⟩
    | Application args =>
      rcases args with _ | ⟨callee, rest⟩
      · simp [eval] at h
      · simp only [eval] at h
        cases h1 : eval fuel callee env with
        | none => simp [h1] at h
        | some r1 =>
          cases r1 with
          | error e => simp [h1] at h
          | ok p =>
            obtain ⟨func, env1⟩ := p
            simp only [h1] at h
            obtain ⟨hg1, hfunc⟩ := ih callee env func env1 h1 hg
            cases hb : lookupStr (Env.builtins env1) (rvToString func) with
            | some bf =>
              simp only [hb] at h
              have hbf : ValGood bf := by
                rw [builtins_eq_of_good env1 hg1] at hb
                exact lookupStr_good initBuiltins (rvToString func) bf
                  varsGood_initBuiltins hb
              exact applyFunctionW_good ih bf rest env1 r env' hbf h hg1
            | none =>
              simp only [hb] at h
              exact applyFunctionW_good ih func rest env1 r env' hfunc h hg1
    | Identifier value =>
      simp only [eval] at h
      cases hv : getVars env value with
      | some val =>
        simp only [hv] at h
        cases h
        exact ⟨hg, getVars_good env value _ hg hv⟩
      | none =>
        simp only [hv] at h
        cases h
        exact ⟨hg, by simp [ValGood]⟩
    | Block exprs =>
      simp only [eval] at h
      exact evalBlockW_good ih exprs (.Number 0) env r env' h hg
        (by simp [ValGood])
    | Cond clauses =>
      simp only [eval] at h
      exact evalClausesW_good ih clauses env r env' h hg
    | Clause a => simp [eval] at h
    | Parameters a => simp [eval] at h
    | Lambda args =>
      rcases args with _ | ⟨p0, _ | ⟨b0, _ | ⟨x, xs⟩⟩⟩
      · simp [eval] at h
      · simp [eval] at h
      · cases p0 <;> simp only [eval] at h <;> try simp at h
        rename_i ps
        cases hx : extractNames ps with
        | error e => simp [hx] at h
        | ok names =>
          simp only [hx] at h
          cases h
          refine ⟨hg, ?_⟩
          have hlg : ValGood (.Lambda names b0 env) = EnvGood env := by
            simp [ValGood]
          exact hlg ▸ hg
      · simp [eval] at h
    | Let name value body =>
      cases name <;> simp only [eval] at h <;> try simp at h
      case Identifier n =>
        cases h1 : eval fuel value env with
        | none => simp [h1] at h
        | some r1 =>
          cases r1 with
          | error e => simp [h1] at h
          | ok p =>
            obtain ⟨v, env1⟩ := p
            simp only [h1] at h
            obtain ⟨hg1, hv1⟩ := ih value env v env1 h1 hg
            exact ih body (insertVars env1 n v) r env' h
              (insertVars_good env1 n v hg1 hv1)
    | Define name value =>
      cases name <;> simp only [eval] at h <;> try simp at h
      case Identifier n =>
        cases h1 : eval fuel value env with
        | none => simp [h1] at h
        | some r1 =>
          cases r1 with
          | error e => simp [h1] at h
          | ok p =>
            obtain ⟨v, env1⟩ := p
            simp only [h1] at h
            cases h
            obtain ⟨hg1, hv1⟩ := ih value env v env1 h1 hg
            exact ⟨insertVars_good env1 n v hg1 hv1, by simp [ValGood]⟩

/-- Applying a closure returns the caller's environment exactly as it was:
the `Lambda` branch of `apply_function` never touches `env`. -/
theorem applyLambda_preserves_caller {ev : EvalFn} {ps : List String}
    {b : Expr} {lenv : Env} {args : List Expr} {env : Env} {r : ResultValue}
    {env' : Env}
    (h : applyFunctionW ev (.Lambda ps b lenv) args env = some (.ok (r, env'))) :
    env' = env := by
  simp only [applyFunctionW] at h
  split at h
  · simp at h
  · cases h2 : bindParamsW ev ps args lenv with
    | none => simp [h2] at h
    | some r2 =>
      cases r2 with
      | error e => simp [h2] at h
      | ok lenv1 =>
        simp only [h2] at h
        cases h3 : ev b lenv1 with
        | none => simp [h3] at h
        | some r3 =>
          cases r3 with
          | error e => simp [h3] at h
          | ok q =>
            obtain ⟨v, lenv2⟩ := q
            simp only [h3] at h
            cases h
            rfl

/-- A closure call computes its result entirely from the closure's own
captured environment: changing the caller's environment changes nothing but
the environment handed back. -/
theorem applyLambda_indep {ev : EvalFn} {ps : List String} {b : Expr}
    {lenv : Env} {args : List Expr} {env env2 : Env} {r : ResultValue}
    {env' : Env}
    (h : applyFunctionW ev (.Lambda ps b lenv) args env = some (.ok (r, env'))) :
    applyFunctionW ev (.Lambda ps b lenv) args env2 = some (.ok (r, env2)) := by
  simp only [applyFunctionW] at h ⊢
  by_cases hlen : args.length ≠ ps.length
  · rw [if_pos hlen] at h
    simp at h
  · rw [if_neg hlen] at h
    rw [if_neg hlen]
    cases h2 : bindParamsW ev ps args lenv with
    | none => simp [h2] at h
    | some r2 =>
      cases r2 with
      | error e => simp [h2] at h
      | ok lenv1 =>
        simp only [h2] at h ⊢
        cases h3 : ev b lenv1 with
        | none => simp [h3] at h
        | some r3 =>
          cases r3 with
          | error e => simp [h3] at h
          | ok q =>
            obtain ⟨v, lenv2⟩ := q
            simp only [h3] at h ⊢
            cases h
            rfl

/-- C1: an identifier that is bound in no node of the environment chain
evaluates successfully to the string value of the identifier's own text; it
never produces an error. -/
theorem C1_unbound_identifier_falls_back_to_string (fuel : Nat)
    (name : String) (env : Env)
    (h : ∀ e ∈ chainNodes env, lookupStr (Env.vars e) name = none) :
    eval (fuel + 1) (.Identifier name) env = some (.ok (.String name, env)) := by
  have hn : getVars env name = none := (getVars_eq_none_iff env name).mpr h
  simp [eval, hn]

/-- Witness for C1: "foo" is bound nowhere in the start-up environment, and
`Identifier("foo")` evaluates to the string "foo". -/
theorem C1_witness :
    (∀ e ∈ chainNodes Env.new, lookupStr (Env.vars e) "foo" = none) ∧
    eval 1 (.Identifier "foo") Env.new = some (.ok (.String "foo", Env.new)) := by
  have hchain : ∀ e ∈ chainNodes Env.new, lookupStr (Env.vars e) "foo" = none := by
    intro e he
    have hc : chainNodes Env.new = [Env.new] := rfl
    rw [hc, List.mem_singleton] at he
    subst he
    rfl
  exact ⟨hchain, C1_unbound_identifier_falls_back_to_string 0 "foo" Env.new hchain⟩

/-- C4 as stated is false on the code: `Env::get_vars` never consults the
builtin table, so it reports "not found" for "add" in the start-up
environment even though the local builtin table holds "add". -/
theorem C4_counterexample :
    ¬ (getVars Env.new "add" = none →
        lookupStr (Env.builtins Env.new) "add" = none) := by
  intro himp
  have h2 := himp rfl
  have h3 : lookupStr (Env.builtins Env.new) "add" = some (.Func 2 .add) := rfl
  rw [h3] at h2
  cases h2

/-- C4 amended: lookup checks the current node's local bindings first and
then walks the parent chain, and reports "not found" exactly when every
node up the chain lacks the name in its variable bindings; the builtin
table is not consulted by lookup at all. -/
theorem C4_amended_lookup_ignores_builtins (env : Env) (n : String) :
    getVars env n =
      (chainNodes env).findSome? (fun e => lookupStr (Env.vars e) n) ∧
    (getVars env n = none ↔
      ∀ e ∈ chainNodes env, lookupStr (Env.vars e) n = none) :=
  ⟨getVars_chain env n, getVars_eq_none_iff env n⟩

/-- C5: `Let(name, value, body)` evaluates `value` in the current
environment, binds `name` into that same environment node by mutation (no
child scope), and evaluates `body` there; in particular
`Let(x, 5, Let(x, 10, Identifier(x)))` evaluates to 10 in any environment,
and the resulting environment is the caller's node with both bindings
inserted. -/
theorem C5_let_mutates_current_env (fuel : Nat) (x : String) (v b : Expr)
    (env : Env) :
    (eval (fuel + 1) (.Let (.Identifier x) v b) env =
      match eval fuel v env with
      | none => none
      | some (.error e) => some (.error e)
      | some (.ok (val, env1)) => eval fuel b (insertVars env1 x val)) ∧
    (∀ env0 : Env,
      eval 3 (.Let (.Identifier "x") (.Number 5)
        (.Let (.Identifier "x") (.Number 10) (.Identifier "x"))) env0 =
      some (.ok (.Number 10,
        insertVars (insertVars env0 "x" (.Number 5)) "x" (.Number 10)))) := by
  constructor
  · rfl
  · intro env0
    cases env0 with
    | mk vars0 b0 p0 =>
      simp only [eval, insertVars]
      rw [getVars_hit (("x", ResultValue.Number 10) :: ("x", .Number 5) :: vars0)
        b0 p0 "x" (.Number 10) rfl]

/-- C2: in an `Application`, once the callee has evaluated to a value, the
value's textual rendering is looked up in the builtin table — a hit
dispatches that builtin (a callee rendering as "add" dispatches the builtin
`add`), a miss applies the callee value itself via `apply_function` — and
`apply_function` rejects every value that is neither a builtin function nor
a closure with the not-callable error. -/
theorem C2_application_dispatches_on_rendering (fuel : Nat) (callee : Expr)
    (args : List Expr) (env env1 : Env) (fv : ResultValue)
    (h : eval fuel callee env = some (.ok (fv, env1))) :
    (eval (fuel + 1) (.Application (callee :: args)) env =
      match lookupStr (Env.builtins env1) (rvToString fv) with
      | some bf => applyFunction fuel bf args env1
      | none => applyFunction fuel fv args env1) ∧
    (rvToString fv = "add" → Env.builtins env1 = initBuiltins →
      eval (fuel + 1) (.Application (callee :: args)) env =
        applyFunction fuel (.Func 2 .add) args env1) ∧
    (∀ m : Int, applyFunction fuel (.Number m) args env1 =
      some (.error "Not a function")) ∧
    (∀ bv : Bool, applyFunction fuel (.Bool bv) args env1 =
      some (.error "Not a function")) ∧
    (∀ s : String, applyFunction fuel (.String s) args env1 =
      some (.error "Not a function")) := by
  refine ⟨?_, ?_, ?_, ?_, ?_⟩
  · simp only [eval, h, applyFunction]
  · intro hren hreg
    simp only [eval, h, hren, hreg]
    have hadd : lookupStr initBuiltins "add" = some (.Func 2 .add) := rfl
    rw [hadd]
    rfl
  · intro m; rfl
  · intro bv; rfl
  · intro s; rfl

/-- Witness for C2: a callee that evaluates to the string "add" makes the
application dispatch the builtin `add`, and end to end
`("add")(2, 3)` computes 5. -/
theorem C2_witness :
    eval 2 (.Application [.String "add", .Number 2, .Number 3]) Env.new =
      applyFunction 1 (.Func 2 .add) [.Number 2, .Number 3] Env.new ∧
    eval 2 (.Application [.String "add", .Number 2, .Number 3]) Env.new =
      some (.ok (.Number 5, Env.new)) := by
  have hd := (C2_application_dispatches_on_rendering 1 (.String "add")
    [.Number 2, .Number 3] Env.new Env.new (.String "add") rfl).2.1 rfl rfl
  exact ⟨hd, by rw [hd]; rfl⟩

/-- C6: evaluating a `Lambda` produces a closure that captures the current
environment at that moment, by value; the same `Lambda` under environments
that disagree on some free name yields different closures, so later
mutation of the defining environment cannot change an existing closure. -/
theorem C6_lambda_captures_by_value (fuel : Nat) (ps : List Expr)
    (body : Expr) (env : Env) (names : List String)
    (h : extractNames ps = .ok names) :
    eval (fuel + 1) (.Lambda [.Parameters ps, body]) env =
      some (.ok (.Lambda names body env, env)) ∧
    (∀ (env' : Env) (n : String), getVars env n ≠ getVars env' n →
      ResultValue.Lambda names body env ≠ .Lambda names body env') := by
  constructor
  · simp only [eval, h]
  · intro env' n hne heq
    injection heq with h1 h2 h3
    exact hne (h3 ▸ rfl)

/-- Witness for C6: a one-parameter lambda over free variable "b" captures
the start-up environment, and inserting a binding for "y" yields an
environment whose closure would be a different value. -/
theorem C6_witness :
    eval 1 (.Lambda [.Parameters [.Identifier "a"], .Identifier "b"]) Env.new =
      some (.ok (.Lambda ["a"] (.Identifier "b") Env.new, Env.new)) ∧
    ResultValue.Lambda ["a"] (.Identifier "b") Env.new ≠
      .Lambda ["a"] (.Identifier "b") (insertVars Env.new "y" (.Number 1)) := by
  have hc := C6_lambda_captures_by_value 0 [.Identifier "a"] (.Identifier "b")
    Env.new ["a"] rfl
  refine ⟨hc.1, hc.2 (insertVars Env.new "y" (.Number 1)) "y" ?_⟩
  have h1 : getVars Env.new "y" = none := rfl
  have h2 : getVars (insertVars Env.new "y" (.Number 1)) "y" =
      some (.Number 1) := rfl
  rw [h1, h2]
  exact fun hcon => Option.noConfusion hcon

/-- C7: `Cond` walks its clauses in order; a clause whose condition renders
as the word "true" returns its consequence with no later clause examined; no
matching clause is the "no true clause" error; a clause with child count
other than two, or a child that is not a `Clause` node, is a structural
error.  Concretely, a false clause followed by a true one returns the second
consequence even when a later clause is malformed, and a single false clause
errors with "no true clause". -/
theorem C7_cond_clause_walk (fuel : Nat) (c q : Expr) (cl rest : List Expr)
    (env : Env) :
    (∀ clauses : List Expr, eval (fuel + 1) (.Cond clauses) env =
      evalClausesW (eval fuel) clauses env) ∧
    evalClausesW (eval fuel) [] env = some (.error "No true clause") ∧
    (evalClausesW (eval fuel) (.Clause [c, q] :: rest) env =
      match eval fuel c env with
      | none => none
      | some (.error e) => some (.error e)
      | some (.ok (v, env1)) =>
        if rvToString v = "true" then eval fuel q env1
        else evalClausesW (eval fuel) rest env1) ∧
    (cl.length ≠ 2 → evalClausesW (eval fuel) (.Clause cl :: rest) env =
      some (.error "Each clause must have exactly 2 expressions")) ∧
    (∀ hd : Expr, (∀ l : List Expr, hd ≠ .Clause l) →
      evalClausesW (eval fuel) (hd :: rest) env =
        some (.error "Invalid clause")) ∧
    eval 3 (.Cond [.Clause [.String "no", .Number 1],
      .Clause [.Identifier "true", .Number 2], .Clause [.Number 9]]) Env.new =
      some (.ok (.Number 2, Env.new)) ∧
    eval 2 (.Cond [.Clause [.String "false", .Number 1]]) Env.new =
      some (.error "No true clause") := by
  refine ⟨fun clauses => rfl, rfl, ?_, ?_, ?_, rfl, rfl⟩
  · rfl
  · intro hlen
    simp [evalClausesW, hlen]
  · intro hd hne
    cases hd with
    | Clause l => exact absurd rfl (hne l)
    | Application a => rfl
    | Identifier a => rfl
    | Cond a => rfl
    | Block a => rfl
    | Number a => rfl
    | String a => rfl
    | Parameters a => rfl
    | Lambda a => rfl
    | Let a b c => rfl
    | Define a b => rfl

/-- Witness for C7: a one-element clause errs structurally, and a number in
clause position is an invalid clause. -/
theorem C7_witness :
    evalClausesW (eval 0) [.Clause [.Number 9]] Env.new =
      some (.error "Each clause must have exactly 2 expressions") ∧
    evalClausesW (eval 0) [.Number 7] Env.new =
      some (.error "Invalid clause") := by
  have h := C7_cond_clause_walk 0 (.Number 0) (.Number 0) [.Number 9] []
    Env.new
  exact ⟨h.2.2.2.1 (by decide), h.2.2.2.2.1 (.Number 7)
    (fun l hcon => Expr.noConfusion hcon)⟩

/-- C8 as stated is false on the code: at `a = i64::MIN`, `b = -1` the
divisor is nonzero, yet the source's `a / b` overflows and panics (the
division overflow check fires in release builds too) instead of returning
the truncating quotient. -/
theorem C8_counterexample :
    applyBuiltin .div [.Number i64Min, .Number (-1)] =
      .error "panicked at attempt to divide with overflow" ∧
    (-1 : Int) ≠ 0 ∧
    applyBuiltin .div [.Number i64Min, .Number (-1)] ≠
      .ok (.Number (Int.tdiv i64Min (-1))) := by
  refine ⟨rfl, by decide, ?_⟩
  intro hcon
  rw [show applyBuiltin .div [.Number i64Min, .Number (-1)] =
      .error "panicked at attempt to divide with overflow" from rfl] at hcon
  cases hcon

/-- C8 amended: the registry binds "div" to a two-argument builtin whose
native operation is truncating integer division (Rust `i64` `/`, i.e.
`Int.tdiv`) for every nonzero divisor except `i64::MIN / -1`, where the
host division overflows and the source panics; divisor 0 is the
division-by-zero error, and a non-integer operand is a type error
("Invalid arguments"). -/
theorem C8_amended_div_truncates_except_overflow (a b : Int) :
    lookupStr initBuiltins "div" = some (.Func 2 .div) ∧
    (b ≠ 0 → ¬(a = i64Min ∧ b = -1) →
      applyBuiltin .div [.Number a, .Number b] =
        .ok (.Number (Int.tdiv a b))) ∧
    applyBuiltin .div [.Number a, .Number 0] = .error "Division by zero" ∧
    applyBuiltin .div [.Number i64Min, .Number (-1)] =
      .error "panicked at attempt to divide with overflow" ∧
    (∀ v w : ResultValue,
      ((∀ m : Int, v ≠ .Number m) ∨ (∀ m : Int, w ≠ .Number m)) →
      applyBuiltin .div [v, w] = .error "Invalid arguments") := by
  refine ⟨rfl, ?_, rfl, rfl, ?_⟩
  · intro hb hno
    simp [applyBuiltin, hb, hno]
  · intro v w hvw
    rcases hvw with hv | hw
    · cases v <;> cases w <;>
        first
          | exact absurd rfl (hv _)
          | rfl
    · cases v <;> cases w <;>
        first
          | exact absurd rfl (hw _)
          | rfl

/-- Witness for C8: `-7 div 2` is `-3` (truncation toward zero, away from
the overflowing pair), `1 div 0` is the division-by-zero error, and a
boolean operand is a type error. -/
theorem C8_witness :
    applyBuiltin .div [.Number (-7), .Number 2] = .ok (.Number (-3)) ∧
    applyBuiltin .div [.Number 1, .Number 0] = .error "Division by zero" ∧
    applyBuiltin .div [.Bool true, .Number 1] = .error "Invalid arguments" := by
  have h := C8_amended_div_truncates_except_overflow (-7) 2
  have h0 := C8_amended_div_truncates_except_overflow 1 0
  refine ⟨?_, h0.2.2.1, ?_⟩
  · have ht := h.2.1 (by decide) (by decide)
    have hv : Int.tdiv (-7) 2 = -3 := by decide
    rw [hv] at ht
    exact ht
  · exact h.2.2.2.2 (.Bool true) (.Number 1)
      (Or.inl fun m hcon => ResultValue.noConfusion hcon)

/-- A closure renders as "<lambda ...>", a string of at least 8 characters,
while every builtin name has at most 5; so the rendering of a closure never
hits the builtin table. -/
theorem lookupStr_lambda_rendering_none (ps : List String) (b : Expr)
    (e : Env) :
    lookupStr initBuiltins (rvToString (.Lambda ps b e)) = none := by
  have hs : rvToString (.Lambda ps b e) =
      "<lambda " ++ vecStrDebug ps ++ " " ++ exprDebug b ++ ">" := rfl
  have hlen : 8 ≤ (rvToString (.Lambda ps b e)).length := by
    rw [hs]
    simp only [String.length_append]
    have h8 : ("<lambda " : String).length = 8 := rfl
    omega
  have hne : ∀ k : String, k.length < 8 →
      ¬(k = rvToString (.Lambda ps b e)) := by
    intro k hk hcon
    have hl := congrArg String.length hcon
    omega
  simp only [initBuiltins, lookupStr]
  rw [if_neg (hne "add" (by decide)), if_neg (hne "sub" (by decide)),
    if_neg (hne "mul" (by decide)), if_neg (hne "div" (by decide)),
    if_neg (hne "pow" (by decide)), if_neg (hne "zero?" (by decide)),
    if_neg (hne "=" (by decide)), if_neg (hne "<" (by decide)),
    if_neg (hne ">" (by decide)), if_neg (hne ">=" (by decide)),
    if_neg (hne "<=" (by decide)), if_neg (hne "print" (by decide))]

/-- When the callee of an `Application` evaluates to a closure and the
builtin table is the initial registry, the dispatch falls through to
applying the closure: the closure's rendering hits no builtin name. -/
theorem eval_app_closure (fuel : Nat) (callee : Expr) (args : List Expr)
    (env env1 : Env) (ps : List String) (b : Expr) (lenv : Env)
    (hc : eval fuel callee env = some (.ok (.Lambda ps b lenv, env1)))
    (hb : Env.builtins env1 = initBuiltins) :
    eval (fuel + 1) (.Application (callee :: args)) env =
      applyFunctionW (eval fuel) (.Lambda ps b lenv) args env1 := by
  simp only [eval, hc]
  rw [hb, lookupStr_lambda_rendering_none]

/-- A `Let` over an identifier name steps by evaluating the bound value and
then evaluating the body in the mutated environment. -/
theorem eval_let_step (fuel : Nat) (x : String) (v bexp : Expr)
    (env env1 : Env) (w : ResultValue)
    (hv : eval fuel v env = some (.ok (w, env1))) :
    eval (fuel + 1) (.Let (.Identifier x) v bexp) env =
      eval fuel bexp (insertVars env1 x w) := by
  simp only [eval, hv]

/-- A `Block` steps past its first statement once that statement's result
is known. -/
theorem evalBlockW_step (ev : EvalFn) (e : Expr) (rest : List Expr)
    (acc v : ResultValue) (env env1 : Env)
    (h : ev e env = some (.ok (v, env1))) :
    evalBlockW ev (e :: rest) acc env = evalBlockW ev rest v env1 := by
  simp only [evalBlockW, h]

/-- C3 as stated is false on the code: calling the closure bound to `f`
twice, where each call defines `flag := 42` inside its body, the second
call still sees `flag` unbound (result: the string "flag", not 42), because
`get_vars` hands each call a fresh clone of the stored closure.  The
caller's environment after the program is exactly the start-up environment
with `f` bound; nothing persisted from either call. -/
theorem C3_counterexample :
    eval 12 c3Prog Env.new =
      some (.ok (.String "flag",
        insertVars Env.new "f" (.Lambda [] c3Body Env.new))) ∧
    ResultValue.String "flag" ≠ .Number 42 := by
  refine ⟨?_, fun hcon => ResultValue.noConfusion hcon⟩
  have happ : eval 10 (.Application [.Identifier "f"])
      (insertVars Env.new "f" (.Lambda [] c3Body Env.new)) =
      some (.ok (.String "flag",
        insertVars Env.new "f" (.Lambda [] c3Body Env.new))) := by
    have h1 := eval_app_closure 9 (.Identifier "f") []
      (insertVars Env.new "f" (.Lambda [] c3Body Env.new))
      (insertVars Env.new "f" (.Lambda [] c3Body Env.new))
      [] c3Body Env.new rfl rfl
    rw [h1]
    rfl
  have hblock : evalBlockW (eval 10)
      [.Application [.Identifier "f"], .Application [.Identifier "f"]]
      (.Number 0) (insertVars Env.new "f" (.Lambda [] c3Body Env.new)) =
      some (.ok (.String "flag",
        insertVars Env.new "f" (.Lambda [] c3Body Env.new))) := by
    rw [evalBlockW_step (eval 10) (.Application [.Identifier "f"])
        [.Application [.Identifier "f"]] (.Number 0) (.String "flag")
        (insertVars Env.new "f" (.Lambda [] c3Body Env.new))
        (insertVars Env.new "f" (.Lambda [] c3Body Env.new)) happ,
      evalBlockW_step (eval 10) (.Application [.Identifier "f"]) []
        (.String "flag") (.String "flag")
        (insertVars Env.new "f" (.Lambda [] c3Body Env.new))
        (insertVars Env.new "f" (.Lambda [] c3Body Env.new)) happ]
    rfl
  have hlam : eval 11 (.Lambda [.Parameters [], c3Body]) Env.new =
      some (.ok (.Lambda [] c3Body Env.new, Env.new)) := rfl
  have hlet := eval_let_step 11 "f" (.Lambda [.Parameters [], c3Body])
    (.Block [.Application [.Identifier "f"], .Application [.Identifier "f"]])
    Env.new Env.new (.Lambda [] c3Body Env.new) hlam
  have hblock2 : eval 11
      (.Block [.Application [.Identifier "f"], .Application [.Identifier "f"]])
      (insertVars Env.new "f" (.Lambda [] c3Body Env.new)) =
      some (.ok (.String "flag",
        insertVars Env.new "f" (.Lambda [] c3Body Env.new))) := hblock
  exact hlet.trans hblock2

/-- C3 amended: each call of a closure reached through an identifier works
on the stored closure value (whose lookup clones it), inserting parameter
bindings directly into the captured snapshot copy rather than a child
frame; the call hands the caller's environment back unchanged, with the
stored closure intact, so an identical second call starts from the same
snapshot and yields the same result — no binding from one call is
observable in a later call. -/
theorem C3_amended_each_call_clones_snapshot (fuel : Nat) (name : String)
    (args : List Expr) (env : Env) (ps : List String) (b : Expr) (lenv : Env)
    (hf : getVars env name = some (.Lambda ps b lenv))
    (hnb : lookupStr (Env.builtins env) (rvToString (.Lambda ps b lenv)) = none) :
    eval (fuel + 2) (.Application (.Identifier name :: args)) env =
      applyFunction (fuel + 1) (.Lambda ps b lenv) args env ∧
    (∀ (r : ResultValue) (env' : Env),
      applyFunction (fuel + 1) (.Lambda ps b lenv) args env =
        some (.ok (r, env')) →
      env' = env ∧ getVars env' name = some (.Lambda ps b lenv) ∧
      eval (fuel + 2) (.Application (.Identifier name :: args)) env' =
        eval (fuel + 2) (.Application (.Identifier name :: args)) env) := by
  constructor
  · simp only [eval, hf, hnb, applyFunction]
  · intro r env' happ
    have henv : env' = env := applyLambda_preserves_caller happ
    subst henv
    exact ⟨rfl, hf, rfl⟩

/-- Witness for C3: with `f` bound to the nullary `c3Body` closure over the
start-up environment, a call returns the string "flag" and leaves the
caller environment — including the stored closure — untouched, so the
repeated call is the same call. -/
theorem C3_witness :
    applyFunction 5 (.Lambda [] c3Body Env.new) []
        (insertVars Env.new "f" (.Lambda [] c3Body Env.new)) =
      some (.ok (.String "flag",
        insertVars Env.new "f" (.Lambda [] c3Body Env.new))) ∧
    insertVars Env.new "f" (.Lambda [] c3Body Env.new) =
      insertVars Env.new "f" (.Lambda [] c3Body Env.new) ∧
    getVars (insertVars Env.new "f" (.Lambda [] c3Body Env.new)) "f" =
      some (.Lambda [] c3Body Env.new) ∧
    eval 6 (.Application [.Identifier "f"])
        (insertVars Env.new "f" (.Lambda [] c3Body Env.new)) =
      eval 6 (.Application [.Identifier "f"])
        (insertVars Env.new "f" (.Lambda [] c3Body Env.new)) := by
  have hnb : lookupStr
      (Env.builtins (insertVars Env.new "f" (.Lambda [] c3Body Env.new)))
      (rvToString (.Lambda [] c3Body Env.new)) = none := by
    have hb : Env.builtins (insertVars Env.new "f" (.Lambda [] c3Body Env.new))
        = initBuiltins := rfl
    rw [hb]
    exact lookupStr_lambda_rendering_none [] c3Body Env.new
  have h := (C3_amended_each_call_clones_snapshot 4 "f" []
    (insertVars Env.new "f" (.Lambda [] c3Body Env.new)) [] c3Body Env.new
    rfl hnb).2 (.String "flag")
    (insertVars Env.new "f" (.Lambda [] c3Body Env.new)) rfl
  exact ⟨rfl, h.1, h.2.1, h.2.2⟩

/-- C9: no evaluation step ever modifies any builtin table — starting from
an environment whose every node (recursively, through captured closure
environments) carries the fixed initial 12-entry registry, any successful
evaluation ends in an environment, and produces a value, with exactly that
property. -/
theorem C9_builtin_tables_are_constant (fuel : Nat) (e : Expr) (env : Env)
    (r : ResultValue) (env' : Env)
    (h : eval fuel e env = some (.ok (r, env'))) (hg : EnvGood env) :
    EnvGood env' ∧ ValGood r :=
  eval_good fuel e env r env' h hg

/-- Witness for C9: evaluating a `Let` from the start-up environment keeps
every builtin table equal to the initial registry. -/
theorem C9_witness :
    EnvGood (insertVars Env.new "y" (.Number 1)) ∧ ValGood (.Number 1) :=
  C9_builtin_tables_are_constant 2
    (.Let (.Identifier "y") (.Number 1) (.Identifier "y")) Env.new
    (.Number 1) (insertVars Env.new "y" (.Number 1)) rfl envGood_new

/-- C10: applying a closure hands the caller's environment back exactly as
it was — argument expressions and body run against the closure's captured
snapshot only, so the call's result value does not depend on the caller's
environment at all, and no `Define`/`Let` inside the call leaks a binding
into the caller. -/
theorem C10_closure_call_leaves_caller_untouched (fuel : Nat)
    (ps : List String) (b : Expr) (lenv : Env) (args : List Expr)
    (env : Env) (r : ResultValue) (env' : Env)
    (h : applyFunction fuel (.Lambda ps b lenv) args env =
      some (.ok (r, env'))) :
    env' = env ∧
    (∀ (env2 : Env) (r2 : ResultValue) (env2' : Env),
      applyFunction fuel (.Lambda ps b lenv) args env2 =
        some (.ok (r2, env2')) → r2 = r ∧ env2' = env2) := by
  refine ⟨applyLambda_preserves_caller h, ?_⟩
  intro env2 r2 env2' h2
  have hind : applyFunctionW (eval fuel) (.Lambda ps b lenv) args env2 =
      some (.ok (r, env2)) := applyLambda_indep h
  have h2w : applyFunctionW (eval fuel) (.Lambda ps b lenv) args env2 =
      some (.ok (r2, env2')) := h2
  rw [h2w] at hind
  have hok := Prod.mk.inj (Except.ok.inj (Option.some.inj hind))
  exact ⟨hok.1, hok.2⟩

/-- Witness for C10: a nullary closure whose body `Define`s `flag := 42`
returns `Number 0` and the caller's environment unchanged, and gives the
same value from a different caller environment. -/
theorem C10_witness :
    applyFunction 2
        (.Lambda [] (.Define (.Identifier "flag") (.Number 42)) Env.new) []
        Env.new =
      some (.ok (.Number 0, Env.new)) ∧
    Env.new = Env.new ∧
    (ResultValue.Number 0 = .Number 0 ∧
      insertVars Env.new "z" (.Number 7) = insertVars Env.new "z" (.Number 7)) := by
  have h := C10_closure_call_leaves_caller_untouched 2 []
    (.Define (.Identifier "flag") (.Number 42)) Env.new [] Env.new
    (.Number 0) Env.new rfl
  exact ⟨rfl, h.1, h.2 (insertVars Env.new "z" (.Number 7)) (.Number 0)
    (insertVars Env.new "z" (.Number 7)) rfl⟩

end Interp
